import Mathlib

/-!
Shallow embedding of the GhostBridge post-quantum crypto core
(`ConstantTimeCrypto.cpp`, `AdvancedSideChannelProtection.cpp`,
`SecureMemoryWiper.cpp`) and proofs about the claims of its
specification.

Conventions:
* C byte buffers are `List Nat` with values in `[0, 256)`; machine
  integers are `Nat` (resp. `Int` for C `int32_t`) with explicit
  `% 2^w` at the points where the C types truncate.
* C stack buffers that the code reads without having written them
  (uninitialised memory) are passed in as explicit "garbage"
  parameters, universally quantified in the theorems.
* `std::hash<std::string>` (implementation defined) is modelled as an
  abstract function `h : List Nat → Nat` on the byte contents.
-/

namespace GhostBridge

/-- 2^64, the modulus of the Keccak lane arithmetic (C `uint64_t`). -/
def U64 : Nat := 18446744073709551616

/-- 2^32 (C `uint32_t` modulus). -/
def U32 : Nat := 4294967296

/-- 2^16 (C `uint16_t` modulus). -/
def U16 : Nat := 65536

/-- `rotl64` from the source: constant-time 64-bit left rotation. -/
def rotl64 (n : Nat) (c : Nat) : Nat :=
  (((n <<< c) % U64) ||| (n >>> (64 - c))) % U64

/-- The 24 Keccak round constants, verbatim from `keccak_f1600`. -/
def round_constants : List Nat :=
  [0x0000000000000001, 0x0000000000008082, 0x800000000000808a,
   0x8000000080008000, 0x000000000000808b, 0x0000000080000001,
   0x8000000080008081, 0x8000000000008009, 0x000000000000008a,
   0x0000000000000088, 0x0000000080008009, 0x8000000000008003,
   0x8000000000008002, 0x8000000000000080, 0x000000000000800a,
   0x800000008000000a, 0x8000000080008081, 0x8000000000008080,
   0x0000000080000001, 0x8000000080008008, 0x8000000000000000,
   0x8000000000008082, 0x8000000080000002, 0x8000000080008000]

/-- Lane read of the 25-lane Keccak state. -/
def lane (s : List Nat) (i : Nat) : Nat := s.getD i 0

/-- θ step of `keccak_f1600`. -/
def keccakTheta (s : List Nat) : List Nat :=
  let c := (List.range 5).map fun x =>
    lane s x ^^^ lane s (x + 5) ^^^ lane s (x + 10) ^^^
      lane s (x + 15) ^^^ lane s (x + 20)
  let d := (List.range 5).map fun x =>
    c.getD ((x + 4) % 5) 0 ^^^ rotl64 (c.getD ((x + 1) % 5) 0) 1
  (List.range 25).map fun i => lane s i ^^^ d.getD (i % 5) 0

/-- One step of the ρ/π lane walk: state, carried lane, current (x, y). -/
def keccakRhoPiStep (st : List Nat × Nat × Nat × Nat) (t : Nat) :
    List Nat × Nat × Nat × Nat :=
  let s := st.1
  let temp := st.2.1
  let x := st.2.2.1
  let y := st.2.2.2
  let nx := y
  let ny := (2 * x + 3 * y) % 5
  let nextTemp := lane s (ny * 5 + nx)
  let s' := s.set (ny * 5 + nx) (rotl64 temp (((t + 1) * (t + 2) / 2) % 64))
  (s', nextTemp, nx, ny)

/-- ρ and π steps of `keccak_f1600` (the in-place lane walk). -/
def keccakRhoPi (s : List Nat) : List Nat :=
  ((List.range 24).foldl keccakRhoPiStep (s, lane s 1, 1, 0)).1

/-- χ step of `keccak_f1600`; `~row` is complement modulo 2^64. -/
def keccakChi (s : List Nat) : List Nat :=
  (List.range 25).map fun i =>
    let y := i / 5
    let x := i % 5
    let row := fun j => lane s (y * 5 + j)
    row x ^^^ ((row ((x + 1) % 5) ^^^ (U64 - 1)) &&& row ((x + 2) % 5))

/-- One full Keccak round (θ, ρ, π, χ, ι). -/
def keccakRound (s : List Nat) (round : Nat) : List Nat :=
  let s1 := keccakTheta s
  let s2 := keccakRhoPi s1
  let s3 := keccakChi s2
  s3.set 0 (lane s3 0 ^^^ round_constants.getD round 0)

/-- `keccak_f1600` from the source: 24 rounds over 25 64-bit lanes. -/
def keccak_f1600 (s : List Nat) : List Nat :=
  (List.range 24).foldl keccakRound s

/-- Read byte `p` of the state, viewing the lanes as little-endian bytes
(the C code aliases the state through an `unsigned char*`). -/
def stateByte (s : List Nat) (p : Nat) : Nat :=
  (lane s (p / 8) >>> (8 * (p % 8))) % 256

/-- XOR byte `b` into byte position `p` of the state. -/
def xorStateByte (s : List Nat) (p : Nat) (b : Nat) : List Nat :=
  s.set (p / 8) (lane s (p / 8) ^^^ ((b % 256) <<< (8 * (p % 8))))

/-- XOR a block of bytes into the state starting at byte position 0. -/
def xorBlock (s : List Nat) (block : List Nat) : List Nat :=
  (block.zip (List.range block.length)).foldl
    (fun st bi => xorStateByte st bi.2 bi.1) s

/-- The absorb loop shared by `shake128` and `shake256`, by structural
recursion on a fuel argument (each C iteration consumes at least one
input byte, so `input.length` fuel is always enough). -/
def absorbGo (rate : Nat) : Nat → List Nat → List Nat → List Nat
  | 0, s, _ => s
  | fuel + 1, s, input =>
    if input = [] then s
    else
      let block := input.take rate
      let s1 := xorBlock s block
      let s2 := if block.length = rate then keccak_f1600 s1 else s1
      absorbGo rate fuel s2 (input.drop rate)

/-- The absorb loop shared by `shake128` and `shake256`: XOR the input
rate-sized block at a time, permuting after each full block. -/
def absorbLoop (rate : Nat) (s : List Nat) (input : List Nat) : List Nat :=
  absorbGo rate input.length s input

/-- Read the first `n` bytes of the state. -/
def stateBytes (s : List Nat) (n : Nat) : List Nat :=
  (List.range n).map (stateByte s)

/-- The squeeze loop shared by `shake128` and `shake256`, by structural
recursion on a fuel argument (each C iteration emits at least one byte,
so `remaining` fuel is always enough). -/
def squeezeGo (rate : Nat) : Nat → List Nat → Nat → List Nat
  | 0, _, _ => []
  | fuel + 1, s, remaining =>
    let block := min rate remaining
    if block = 0 then []
    else
      let out := stateBytes s block
      let s' := if block = rate ∧ block < remaining then keccak_f1600 s else s
      out ++ squeezeGo rate fuel s' (remaining - block)

/-- The squeeze loop shared by `shake128` and `shake256`: emit state
bytes a block at a time, permuting between blocks (but not after the
final block). -/
def squeezeLoop (rate : Nat) (s : List Nat) (remaining : Nat) : List Nat :=
  squeezeGo rate remaining s remaining

/-- The all-zero initial sponge state. -/
def zeroState : List Nat := List.replicate 25 0

/-- `shake128` from the source: rate 168, caller-chosen domain byte
(the code passes the Kyber nonce as the domain separator), `0x80`
final pad, then squeeze. -/
def shake128 (input : List Nat) (domain_sep : Nat) (outlen : Nat) : List Nat :=
  let s1 := absorbLoop 168 zeroState input
  let s2 := xorStateByte s1 (input.length % 168) domain_sep
  let s3 := xorStateByte s2 167 0x80
  let s4 := keccak_f1600 s3
  squeezeLoop 168 s4 outlen

/-- `shake256` from the source: rate 136, fixed `0x1F` domain byte. -/
def shake256 (input : List Nat) (outlen : Nat) : List Nat :=
  let s1 := absorbLoop 136 zeroState input
  let s2 := xorStateByte s1 (input.length % 136) 0x1F
  let s3 := xorStateByte s2 135 0x80
  let s4 := keccak_f1600 s3
  squeezeLoop 136 s4 outlen

/-! ## Constant-time primitives (`ConstantTimeCrypto.cpp` §4.2) -/

/-- `constant_time_memcmp` from the source: OR together the XOR of every
byte pair, test once at the end; returns 1 on any difference, else 0. -/
def constant_time_memcmp (a b : List Nat) (len : Nat) : Nat :=
  let result := (List.range len).foldl
    (fun acc i => acc ||| (a.getD i 0 ^^^ b.getD i 0)) 0
  if result ≠ 0 then 1 else 0

/-- `CONSTANT_TIME_MASK` from the source (`x ? 0xFFFFFFFF : 0`). -/
def constant_time_mask (x : Nat) : Nat :=
  if x ≠ 0 then 0xFFFFFFFF else 0

/-- `CONSTANT_TIME_SELECT(mask, a, b) = (mask & a) | (~mask & b)` in
`unsigned int` arithmetic. -/
def constant_time_select (mask a b : Nat) : Nat :=
  (mask &&& a) ||| ((mask ^^^ 0xFFFFFFFF) &&& b)

/-- `constant_time_conditional_move` from the source: overwrite `dest`
byte-wise with `src` under the mask derived from `condition`, touching
every byte of `dest`. -/
def constant_time_conditional_move (dest src : List Nat) (len : Nat)
    (condition : Nat) : List Nat :=
  let mask := constant_time_mask condition
  (List.range len).map fun i =>
    constant_time_select mask (src.getD i 0) (dest.getD i 0) % 256

/-! ## Kyber modular reduction and polynomial arithmetic (§4.3) -/

/-- The Kyber modulus Q = 3329. -/
def KYBER_Q : Nat := 3329

/-- `montgomery_reduce` from the source: `u = a*62209` in `uint32_t`,
`u &= 0xFFFF`, `u *= Q`, return `(a + u) >> 16` (all in `uint32_t`,
result narrowed to `uint16_t`). -/
def montgomery_reduce (a : Nat) : Nat :=
  let u := (a * 62209) % U32 % U16
  let u := (u * KYBER_Q) % U32
  ((a + u) % U32) >>> 16

/-- `barrett_reduce` from the source:
`v = ((1 << 26) + Q/2) / Q`, `t = (v*a) >> 26`, `t *= Q`, return
`a - t` (the subtraction wraps through `uint32_t` and the result is
narrowed to `uint16_t`). -/
def barrett_reduce (a : Nat) : Nat :=
  let v := ((1 <<< 26) + KYBER_Q / 2) / KYBER_Q
  let t := ((v * a) % U32) >>> 26
  let t := (t * KYBER_Q) % U32
  ((a + (U32 - t)) % U32) % U16

/-- `poly_zero` from the source. -/
def poly_zero : List Nat := List.replicate 256 0

/-- `poly_ntt` from the source.  The C function body is empty (the
"Number Theoretic Transform implementation" comment is followed by no
code), so the polynomial is returned unchanged. -/
def poly_ntt (poly : List Nat) : List Nat := poly

/-- `poly_add` from the source: coefficient-wise
`barrett_reduce(result[i] + b[i])`; the sum is narrowed to `uint16_t`
when passed to `barrett_reduce`. -/
def poly_add (result b : List Nat) : List Nat :=
  List.zipWith (fun x y => barrett_reduce ((x + y) % U16)) result b

/-- `poly_reduce` from the source: coefficient-wise Barrett reduction. -/
def poly_reduce (poly : List Nat) : List Nat :=
  poly.map barrett_reduce

/-- `poly_multiply_add` from the source:
`result[i] += montgomery_reduce((uint32_t)a[i] * b[i])`, the `+=`
wrapping in `uint16_t`. -/
def poly_multiply_add (result a b : List Nat) : List Nat :=
  List.zipWith (fun ri xy => (ri + montgomery_reduce ((xy.1 * xy.2) % U32)) % U16)
    result (a.zip b)

/-- `popcount` from the source (branch-free bit count). -/
def popcount (x : Nat) : Nat :=
  let x := (x + (U32 - ((x >>> 1) &&& 0x55555555))) % U32
  let x := ((x &&& 0x33333333) + ((x >>> 2) &&& 0x33333333)) % U32
  let x := ((x + (x >>> 4)) &&& 0x0F0F0F0F) % U32
  let x := (x + (x >>> 8)) % U32
  let x := (x + (x >>> 16)) % U32
  x &&& 0x3F

/-- `poly_noise_eta1` from the source: 128 bytes of `shake128` output
(the nonce is passed as the SHAKE domain byte), then per 4-bit chunk
`popcount(a & 0x5) - popcount(a & 0xA)`, the signed difference narrowed
to `uint16_t`. -/
def poly_noise_eta1 (seed : List Nat) (nonce : Nat) : List Nat :=
  let buf := shake128 (seed.take 32) nonce 128
  (List.range 256).map fun idx =>
    let i := idx / 8
    let j := idx % 8
    let t := buf.getD (4*i) 0 ||| (buf.getD (4*i+1) 0 <<< 8) |||
             (buf.getD (4*i+2) 0 <<< 16) ||| (buf.getD (4*i+3) 0 <<< 24)
    let a := (t >>> (4*j)) &&& 0xF
    (popcount (a &&& 0x5) + (U16 - popcount (a &&& 0xA))) % U16

/-- `poly_uniform` from the source ("implementation simplified for
brevity" in the C): `poly[i] = (seed[i % 32] + nonce) % Q`. -/
def poly_uniform (seed : List Nat) (nonce : Nat) : List Nat :=
  (List.range 256).map fun i => (seed.getD (i % 32) 0 + nonce) % KYBER_Q

/-! ## Kyber KEM (§4.4)

`encrypt`, `decrypt` and `pack_secret_key` in the source have empty
bodies (comments only), and `pack_public_key` writes only the 32-byte
seed.  In the embedding, a buffer the C code leaves unwritten keeps its
previous (uninitialised) contents, which are passed in as explicit
garbage parameters. -/

/-- Sizes from the source. -/
def KYBER_PUBLIC_KEY_BYTES : Nat := 1184
def KYBER_SECRET_KEY_BYTES : Nat := 2400
def KYBER_CIPHERTEXT_BYTES : Nat := 1088

/-- `pack_public_key` from the source: copies the 32-byte seed to the
front of `pk`; the remaining 1152 bytes are never written ("Pack t
values..." is a comment with no code). -/
def pack_public_key (pkGarbage : List Nat) (seed : List Nat) : List Nat :=
  seed.take 32 ++ pkGarbage.drop 32

/-- `pack_secret_key` from the source: the body is empty, so the
secret-key buffer keeps its previous contents. -/
def pack_secret_key (skGarbage : List Nat) : List Nat := skGarbage

/-- `encrypt` from the source: the body is empty, so the ciphertext
buffer keeps its previous contents. -/
def kyber_encrypt (ctGarbage : List Nat) : List Nat := ctGarbage

/-- `decrypt` from the source: the body is empty, so the message
buffer keeps its previous contents. -/
def kyber_decrypt (mGarbage : List Nat) : List Nat := mGarbage

/-- `kyber_keypair` from the source.  `seed` models the 32 bytes drawn
from `secure_rng`; `pkGarbage`/`skGarbage` are the initial contents of
the caller's key buffers.  The matrix/noise computation
(A, s, e, t = As + e) is performed by the C code but none of it reaches
the outputs, because `pack_public_key` stores only the seed and
`pack_secret_key` stores nothing. -/
def kyber_keypair (seed pkGarbage skGarbage : List Nat) :
    List Nat × List Nat :=
  let public_seed := shake128 (seed.take 32) 0x00 32
  let pk := pack_public_key pkGarbage public_seed
  let sk := pack_secret_key skGarbage
  (pk, sk)

/-- The `t = As + e` computation inside `kyber_keypair` (dead code with
respect to the packed outputs, embedded for the invariant claims):
row `i` of the public vector before packing. -/
def kyber_keypair_t_row (seed : List Nat) (i : Nat) : List Nat :=
  let public_seed := shake128 (seed.take 32) 0x00 32
  let noise_seed := shake128 (seed.take 32) 0x01 32
  let s := fun j => poly_ntt (poly_noise_eta1 noise_seed j)
  let e := poly_ntt (poly_noise_eta1 noise_seed (3 + i))
  let acc := (List.range 3).foldl
    (fun acc j => poly_multiply_add acc (poly_uniform public_seed ((i <<< 8) ||| j)) (s j))
    poly_zero
  poly_reduce (poly_add acc e)

/-- `kyber_encaps` from the source.  `m` models the 32 random message
bytes from `secure_rng`; `ctGarbage` is the initial content of the
ciphertext buffer (`encrypt` writes nothing).  The 64-byte local `buf`
overflows in the C (`memcpy(buf + 32, ct, 1088)`); the embedding gives
the hash the byte sequence the code assembles. -/
def kyber_encaps (pk m ctGarbage : List Nat) : List Nat × List Nat :=
  let buf := shake128 (m.take 32) 0x00 32 ++
    (pk.drop (KYBER_PUBLIC_KEY_BYTES - 32)).take 32
  let Kr := shake128 buf 0x01 64
  let ct := kyber_encrypt (ctGarbage.take KYBER_CIPHERTEXT_BYTES)
  let ss := shake128 (Kr.take 32 ++ ct) 0x02 32
  (ct, ss)

/-- `kyber_decaps` from the source: decrypt (a no-op), re-derive `Kr`
from the recovered message and the public-key bytes stored at the tail
of `sk`, re-encrypt (a no-op, leaving `ct_check` as garbage), compare
with `constant_time_memcmp`, derive both the success secret and the
implicit-rejection secret, and select with two
`constant_time_conditional_move` calls.  Returns `(status, ss)`;
the C function always returns status 0. -/
def kyber_decaps (ct sk mGarbage ctCheckGarbage ssGarbage : List Nat) :
    Nat × List Nat :=
  let m := kyber_decrypt (mGarbage.take 32)
  let buf := shake128 m 0x00 32 ++
    (sk.drop (KYBER_SECRET_KEY_BYTES - 32)).take 32
  let Kr := shake128 buf 0x01 64
  let ct_check := kyber_encrypt (ctCheckGarbage.take KYBER_CIPHERTEXT_BYTES)
  let fail := constant_time_memcmp (ct.take KYBER_CIPHERTEXT_BYTES) ct_check
    KYBER_CIPHERTEXT_BYTES
  let ss_success := shake128 (Kr.take 32 ++ ct.take KYBER_CIPHERTEXT_BYTES) 0x02 32
  let ss_failure := shake128
    ((sk.drop (KYBER_SECRET_KEY_BYTES - 64)).take 32) 0x03 32
  let ss := constant_time_conditional_move (ssGarbage.take 32) ss_success 32
    (if fail = 0 then 1 else 0)
  let ss := constant_time_conditional_move ss ss_failure 32 fail
  (0, ss)

/-- `ss_failure` of `kyber_decaps` as the source computes it: the hash
of the 32 secret-key bytes at offset `SECRET_KEY_BYTES - 64` — the
ciphertext is not part of the hash input. -/
def kyber_decaps_failure_secret (sk : List Nat) : List Nat :=
  shake128 ((sk.drop (KYBER_SECRET_KEY_BYTES - 64)).take 32) 0x03 32

/-- Modelled from the spec (§4.4): the claimed "failure" shared secret,
"the hash of a secret-key-derived implicit-rejection value **and the
ciphertext**".  Stated with the same hash, rejection value and domain
byte as the code, with the ciphertext appended to the hash input as the
spec's words require. -/
def spec_failure_secret (sk ct : List Nat) : List Nat :=
  shake128 ((sk.drop (KYBER_SECRET_KEY_BYTES - 64)).take 32 ++
    ct.take KYBER_CIPHERTEXT_BYTES) 0x03 32

/-! ## Reduction lemmas -/

/-- Correctness of `barrett_reduce` on its whole `uint16_t` domain. -/
theorem barrett_reduce_eq (a : Nat) (ha : a < 65536) :
    barrett_reduce a = a % 3329 := by
  simp only [barrett_reduce, KYBER_Q, U32, U16, Nat.shiftRight_eq_div_pow,
    Nat.shiftLeft_eq]
  norm_num
  have key : (20159 * a) % 4294967296 = 20159 * a := by omega
  rw [key]
  have k2 : 20159 * a / 67108864 = a / 3329 := by omega
  rw [k2]
  have k3 : a / 3329 * 3329 % 4294967296 = a / 3329 * 3329 := by omega
  rw [k3]
  omega

/-- `barrett_reduce` lands in the canonical range on `uint16_t` inputs. -/
theorem barrett_reduce_lt (a : Nat) (ha : a < 65536) :
    barrett_reduce a < 3329 := by
  rw [barrett_reduce_eq a ha]
  exact Nat.mod_lt _ (by norm_num)

/-- Claim C7, counterexample.  The claim states that for every
`uint32_t` input in the Montgomery input domain, `montgomery_reduce a`
is congruent to `a·2⁻¹⁶ (mod 3329)`, i.e. `montgomery_reduce a · 2¹⁶ ≡ a`.
It fails already at `a = 1` (reachable as the product `1·1` of canonical
coefficients in `poly_multiply_add`): the code computes
`(a + ((a·62209 mod 2¹⁶)·Q)) >> 16` with `+` and `QINV = q⁻¹ mod 2¹⁶`,
instead of the Montgomery form `(a − (a·(−q⁻¹) mod 2¹⁶)·q) / 2¹⁶`, so
the low 16 bits are not cancelled and the shift discards information. -/
theorem claim_C7_counterexample :
    montgomery_reduce 1 = 3160 ∧
    (montgomery_reduce 1 * 65536) % 3329 ≠ 1 % 3329 := by
  decide

/-- Claim C7 (amended): `barrett_reduce` is a correct modular reduction
on its entire `uint16_t` domain — `barrett_reduce a = a mod 3329 ∈
[0, 3329)` — but `montgomery_reduce` does not satisfy the Montgomery
congruence `result·2¹⁶ ≡ a (mod 3329)` on the `uint32_t` domain. -/
theorem claim_C7_reductions :
    (∀ a : Nat, a < 65536 →
      barrett_reduce a = a % 3329 ∧ barrett_reduce a < 3329) ∧
    ¬ (∀ a : Nat, a < 4294967296 →
      (montgomery_reduce a * 65536) % 3329 = a % 3329) := by
  constructor
  · intro a ha
    exact ⟨barrett_reduce_eq a ha, barrett_reduce_lt a ha⟩
  · intro h
    have h1 := h 1 (by norm_num)
    revert h1
    decide

/-- Witness for C7 at the concrete input 40000. -/
theorem claim_C7_reductions_witness :
    (40000 : Nat) < 65536 ∧
    (barrett_reduce 40000 = 40000 % 3329 ∧ barrett_reduce 40000 < 3329) :=
  ⟨by decide, claim_C7_reductions.1 40000 (by decide)⟩

/-- Claim C8, counterexample.  The claim states every polynomial
operation leaves all coefficients in `[0, Q)`.  `poly_multiply_add` on
canonical inputs (result coefficient 3000, operands 1) produces the
coefficient `3000 + montgomery_reduce 1 = 6160 ≥ 3329`: the `+=` in the
C code performs no reduction. -/
theorem claim_C8_counterexample :
    (poly_multiply_add (3000 :: List.replicate 255 0) (List.replicate 256 1)
      (List.replicate 256 1)).headD 0 = 6160 ∧
    ¬ (6160 < 3329) ∧
    (∀ c ∈ (3000 :: List.replicate 255 0), c < 3329) ∧
    (∀ c ∈ List.replicate 256 (1 : Nat), c < 3329) := by
  refine ⟨by decide, by decide, ?_, ?_⟩
  · intro c hc
    rcases List.mem_cons.mp hc with h | h
    · omega
    · rw [List.eq_of_mem_replicate h]; norm_num
  · intro c hc
    rw [List.eq_of_mem_replicate hc]; norm_num

/-- Claim C8 (amended): coefficients are canonical after `poly_add` and
`poly_reduce` (both Barrett-reduce every stored coefficient), but not
after `poly_multiply_add` (unreduced `+=`) nor `poly_noise_eta1`
(centered-binomial values of −1/−2 wrap to 65535/65534 in `uint16_t`). -/
theorem claim_C8_canonical (p q : List Nat) :
    (∀ c ∈ poly_add p q, c < 3329) ∧
    ((∀ c ∈ p, c < 65536) → ∀ c ∈ poly_reduce p, c < 3329) := by
  constructor
  · intro c hc
    rw [List.mem_iff_getElem] at hc
    obtain ⟨i, hi, rfl⟩ := hc
    simp only [poly_add, List.getElem_zipWith, U16]
    exact barrett_reduce_lt _ (Nat.mod_lt _ (by norm_num))
  · intro hp c hc
    simp only [poly_reduce, List.mem_map] at hc
    obtain ⟨x, hx, rfl⟩ := hc
    exact barrett_reduce_lt _ (hp x hx)

/-- Witness for C8 at the concrete polynomials `[3500]` and `[200]`. -/
theorem claim_C8_canonical_witness :
    (∀ c ∈ poly_add [3500] [200], c < 3329) ∧
    (∀ c ∈ poly_reduce [3500], c < 3329) :=
  ⟨(claim_C8_canonical [3500] [200]).1,
   (claim_C8_canonical [3500] [200]).2 (by decide)⟩

/-- Claim C6.  The claim states `poly_ntt` performs a true
number-theoretic transform (a full butterfly network) and in particular
is not the identity on polynomials.  The C body of `poly_ntt` contains
only comments and no executable statement, so the function returns every
polynomial unchanged: it is exactly the no-op stand-in the specification
rules out. -/
theorem claim_C6_ntt_is_identity : ∀ p : List Nat, poly_ntt p = p :=
  fun _ => rfl

/-! ## Side-channel layer: `protected_memcmp`
(`AdvancedSideChannelProtection.cpp`)

`noise_rng` is modelled as a stream `rng : Nat → Nat` together with a
draw counter; `inject_em_noise` consumes 32 draws and
`balance_power_consumption` consumes 16 draws (one per iteration of
their loops).  The loop state is `(result, decoy_result, draw counter)`. -/

/-- One iteration of the comparison loop of `protected_memcmp`:
accumulate `a[i] ^ b[i]` into `result`, perform 4 random decoy reads
into `decoy_result`, and every 16th iteration burn the 16 draws of
`balance_power_consumption`. -/
def protected_memcmp_step (rng : Nat → Nat) (a b : List Nat) (len : Nat)
    (st : Nat × Nat × Nat) (i : Nat) : Nat × Nat × Nat :=
  let result := st.1 ||| (a.getD i 0 ^^^ b.getD i 0)
  let inner := (List.range 4).foldl
    (fun dc j =>
      let off := rng (dc.2 + j) % len
      (dc.1 ^^^ (a.getD off 0 ^^^ b.getD off 0), dc.2))
    (st.2.1, st.2.2)
  let ctr := inner.2 + 4
  let ctr := if i &&& 15 = 0 then ctr + 16 else ctr
  (result, inner.1, ctr)

/-- `protected_memcmp` from the source: returns the pair of the C
return value `result` and the discarded `decoy_result`. -/
def protected_memcmp (rng : Nat → Nat) (a b : List Nat) (len : Nat) :
    Nat × Nat × Nat :=
  (List.range len).foldl (protected_memcmp_step rng a b len) (0, 0, 32)

/-- `Java_..._protectedMemcmp` from the source: rejects unequal array
lengths, then returns `JNI_TRUE` iff `protected_memcmp` returned 0. -/
def protectedMemcmpJNI (rng : Nat → Nat) (a b : List Nat) : Bool :=
  if a.length ≠ b.length then false
  else (protected_memcmp rng a b a.length).1 == 0

/-- First component of the `protected_memcmp` fold is independent of
the noise stream and of the decoy/counter state. -/
theorem protected_memcmp_fst (a b : List Nat) (len : Nat) (l : List Nat)
    (r1 r2 : Nat → Nat) (s1 s2 : Nat × Nat × Nat) (h : s1.1 = s2.1) :
    (l.foldl (protected_memcmp_step r1 a b len) s1).1 =
    (l.foldl (protected_memcmp_step r2 a b len) s2).1 := by
  induction l generalizing s1 s2 with
  | nil => exact h
  | cons x xs ih =>
    simp only [List.foldl_cons]
    exact ih _ _ (by simp [protected_memcmp_step, h])

/-- The result accumulator of `protected_memcmp` over `range len` is
the plain OR-of-XORs fold. -/
theorem protected_memcmp_fst_eq (rng : Nat → Nat) (a b : List Nat)
    (len : Nat) (l : List Nat) (s : Nat × Nat × Nat) :
    (l.foldl (protected_memcmp_step rng a b len) s).1 =
    l.foldl (fun acc i => acc ||| (a.getD i 0 ^^^ b.getD i 0)) s.1 := by
  induction l generalizing s with
  | nil => rfl
  | cons x xs ih =>
    simp only [List.foldl_cons]
    rw [ih]
    rfl

/-- Zero is absorbing for OR: `a ||| b = 0` iff both are zero. -/
theorem lor_eq_zero {a b : Nat} : a ||| b = 0 ↔ a = 0 ∧ b = 0 := by
  constructor
  · intro h
    constructor
    · apply Nat.eq_of_testBit_eq
      intro k
      have hk := congrArg (fun x => Nat.testBit x k) h
      simp only [Nat.testBit_lor] at hk
      simp only [Nat.zero_testBit] at hk ⊢
      exact (Bool.or_eq_false_iff.mp hk).1
    · apply Nat.eq_of_testBit_eq
      intro k
      have hk := congrArg (fun x => Nat.testBit x k) h
      simp only [Nat.testBit_lor] at hk
      simp only [Nat.zero_testBit] at hk ⊢
      exact (Bool.or_eq_false_iff.mp hk).2
  · rintro ⟨rfl, rfl⟩
    rfl

/-- An OR-of-XORs fold over `range len` is zero iff the two lists agree
at every index below `len`. -/
theorem orfold_eq_zero_iff (a b : List Nat) (len : Nat) :
    (List.range len).foldl
      (fun acc i => acc ||| (a.getD i 0 ^^^ b.getD i 0)) 0 = 0 ↔
    ∀ i < len, a.getD i 0 = b.getD i 0 := by
  induction len with
  | zero => simp
  | succ n ih =>
    rw [List.range_succ, List.foldl_append]
    simp only [List.foldl_cons, List.foldl_nil]
    rw [lor_eq_zero, ih, Nat.xor_eq_zero]
    constructor
    · rintro ⟨h1, h2⟩ i hi
      rcases Nat.lt_succ_iff_lt_or_eq.mp hi with h' | rfl
      · exact h1 i h'
      · exact h2
    · intro h
      exact ⟨fun i hi => h i (Nat.lt_succ_of_lt hi),
             h n (Nat.lt_succ_self n)⟩

/-- Claim C10.  For equal-length buffers and any two noise-RNG streams,
`protected_memcmp` returns the same value (the decoy reads and
power-balancing draws never reach the returned accumulator), the value
is 0 exactly when the buffers agree byte-for-byte, and the JNI wrapper
`protectedMemcmp` returns `true` iff the arrays are equal. -/
theorem claim_C10_protected_memcmp (a b : List Nat) (r1 r2 : Nat → Nat)
    (h : a.length = b.length) :
    (protected_memcmp r1 a b a.length).1 =
      (protected_memcmp r2 a b a.length).1 ∧
    ((protected_memcmp r1 a b a.length).1 = 0 ↔ a = b) ∧
    (protectedMemcmpJNI r1 a b = true ↔ a = b) := by
  have hiff : (protected_memcmp r1 a b a.length).1 = 0 ↔ a = b := by
    rw [protected_memcmp, protected_memcmp_fst_eq, orfold_eq_zero_iff]
    constructor
    · intro hall
      apply List.ext_getElem h
      intro i h1 h2
      have hi := hall i h1
      rwa [List.getD_eq_getElem a 0 h1,
           List.getD_eq_getElem b 0 (by omega)] at hi
    · rintro rfl
      intro i hi
      rfl
  refine ⟨protected_memcmp_fst a b a.length _ r1 r2 _ _ rfl, hiff, ?_⟩
  rw [protectedMemcmpJNI, if_neg (by omega), beq_iff_eq]
  exact hiff

/-- Witness for C10: two concrete equal buffers under two different
noise streams. -/
theorem claim_C10_protected_memcmp_witness :
    ([1, 2] : List Nat).length = ([1, 2] : List Nat).length ∧
    ((protected_memcmp (fun _ => 0) [1, 2] [1, 2] 2).1 =
      (protected_memcmp (fun n => n + 7) [1, 2] [1, 2] 2).1 ∧
    ((protected_memcmp (fun _ => 0) [1, 2] [1, 2] 2).1 = 0 ↔
      ([1, 2] : List Nat) = [1, 2]) ∧
    (protectedMemcmpJNI (fun _ => 0) [1, 2] [1, 2] = true ↔
      ([1, 2] : List Nat) = [1, 2])) :=
  ⟨rfl, claim_C10_protected_memcmp [1, 2] [1, 2] (fun _ => 0)
    (fun n => n + 7) rfl⟩

/-! ## Sponge output lemmas and conditional-move lemmas -/

/-- The squeeze loop emits exactly `remaining` bytes when given enough
fuel. -/
theorem squeezeGo_length (rate : Nat) (hrate : 0 < rate) :
    ∀ fuel s rem, rem ≤ fuel → (squeezeGo rate fuel s rem).length = rem := by
  intro fuel
  induction fuel with
  | zero =>
    intro s rem h
    have : rem = 0 := Nat.le_zero.mp h
    subst this
    rfl
  | succ n ih =>
    intro s rem h
    rw [squeezeGo]
    by_cases h0 : min rate rem = 0
    · rw [if_pos h0]
      simp only [List.length_nil]
      omega
    · rw [if_neg h0]
      rw [List.length_append, stateBytes, List.length_map, List.length_range,
        ih _ _ (by omega)]
      omega

/-- Every byte the squeeze loop emits is below 256. -/
theorem squeezeGo_bytes_lt (rate : Nat) :
    ∀ fuel s rem, ∀ x ∈ squeezeGo rate fuel s rem, x < 256 := by
  intro fuel
  induction fuel with
  | zero =>
    intro s rem x hx
    simp [squeezeGo] at hx
  | succ n ih =>
    intro s rem x hx
    rw [squeezeGo] at hx
    by_cases h0 : min rate rem = 0
    · rw [if_pos h0] at hx
      simp at hx
    · rw [if_neg h0] at hx
      rcases List.mem_append.mp hx with h | h
      · simp only [stateBytes, List.mem_map] at h
        obtain ⟨i, _, rfl⟩ := h
        exact Nat.mod_lt _ (by norm_num)
      · exact ih _ _ x h

/-- `shake128` output length. -/
theorem shake128_length (input : List Nat) (d n : Nat) :
    (shake128 input d n).length = n :=
  squeezeGo_length 168 (by norm_num) n _ n (Nat.le_refl n)

/-- `shake128` output bytes are below 256. -/
theorem shake128_bytes_lt (input : List Nat) (d n : Nat) :
    ∀ x ∈ shake128 input d n, x < 256 :=
  squeezeGo_bytes_lt 168 n _ n

/-- `shake256` output length. -/
theorem shake256_length (input : List Nat) (n : Nat) :
    (shake256 input n).length = n :=
  squeezeGo_length 136 (by norm_num) n _ n (Nat.le_refl n)

/-- `shake256` output bytes are below 256. -/
theorem shake256_bytes_lt (input : List Nat) (n : Nat) :
    ∀ x ∈ shake256 input n, x < 256 :=
  squeezeGo_bytes_lt 136 n _ n

/-- With a non-zero condition, `constant_time_conditional_move` copies
the source bytes (reduced mod 256 by the `unsigned char` store). -/
theorem cmove_of_ne_zero (d s : List Nat) (len c : Nat) (hc : c ≠ 0) :
    constant_time_conditional_move d s len c =
    (List.range len).map (fun i => s.getD i 0 % 256) := by
  unfold constant_time_conditional_move constant_time_mask
  rw [if_pos hc]
  apply List.map_congr_left
  intro i _
  unfold constant_time_select
  rw [Nat.xor_self, Nat.zero_and, Nat.or_zero, Nat.and_comm]
  rw [show (0xFFFFFFFF : Nat) = 2 ^ 32 - 1 from by norm_num,
    Nat.and_pow_two_sub_one_eq_mod]
  rw [Nat.mod_mod_of_dvd _ (by norm_num)]

/-- With a zero condition, `constant_time_conditional_move` keeps the
destination bytes (still rewritten mod 256 by the store). -/
theorem cmove_of_zero (d s : List Nat) (len : Nat) :
    constant_time_conditional_move d s len 0 =
    (List.range len).map (fun i => d.getD i 0 % 256) := by
  unfold constant_time_conditional_move constant_time_mask
  rw [if_neg (by omega)]
  apply List.map_congr_left
  intro i _
  unfold constant_time_select
  rw [Nat.zero_and, Nat.zero_xor, Nat.zero_or, Nat.and_comm]
  rw [show (0xFFFFFFFF : Nat) = 2 ^ 32 - 1 from by norm_num,
    Nat.and_pow_two_sub_one_eq_mod]
  rw [Nat.mod_mod_of_dvd _ (by norm_num)]

/-- A byte-wise `getD`-rebuild of a 256-bounded list of length `len`
reproduces the list. -/
theorem map_getD_mod_eq (L : List Nat) (len : Nat) (hlen : L.length = len)
    (hb : ∀ x ∈ L, x < 256) :
    (List.range len).map (fun i => L.getD i 0 % 256) = L := by
  apply List.ext_getElem
  · rw [List.length_map, List.length_range, hlen]
  · intro i h1 h2
    rw [List.getElem_map, List.getElem_range]
    have hi : i < L.length := h2
    rw [List.getD_eq_getElem L 0 hi]
    exact Nat.mod_eq_of_lt (hb _ (List.getElem_mem hi))

/-- The "success" shared secret of `kyber_decaps` as the source
computes it: hash of `Kr′` (re-derived from the decrypted message,
which the no-op `decrypt` leaves as buffer garbage) and the input
ciphertext. -/
def kyber_decaps_success_secret (ct sk mG : List Nat) : List Nat :=
  let m := kyber_decrypt (mG.take 32)
  let buf := shake128 m 0x00 32 ++
    (sk.drop (KYBER_SECRET_KEY_BYTES - 32)).take 32
  let Kr := shake128 buf 0x01 64
  shake128 (Kr.take 32 ++ ct.take KYBER_CIPHERTEXT_BYTES) 0x02 32

/-- When the constant-time comparison reports a match, `kyber_decaps`
returns the success secret. -/
theorem kyber_decaps_match (ct sk mG cG sG : List Nat)
    (hF : constant_time_memcmp (ct.take KYBER_CIPHERTEXT_BYTES)
          (kyber_encrypt (cG.take KYBER_CIPHERTEXT_BYTES))
          KYBER_CIPHERTEXT_BYTES = 0) :
    (kyber_decaps ct sk mG cG sG).2 = kyber_decaps_success_secret ct sk mG := by
  simp only [kyber_decaps]
  rw [hF]
  rw [cmove_of_zero, cmove_of_ne_zero _ _ _ _ (by norm_num)]
  rw [map_getD_mod_eq _ 32]
  · exact map_getD_mod_eq _ 32 (shake128_length _ _ _) (shake128_bytes_lt _ _ _)
  · rw [List.length_map, List.length_range]
  · intro x hx
    rw [List.mem_map] at hx
    obtain ⟨i, _, rfl⟩ := hx
    exact Nat.mod_lt _ (by norm_num)

/-- When the constant-time comparison reports a mismatch,
`kyber_decaps` returns the implicit-rejection secret — which hashes
only the secret-key bytes, not the ciphertext. -/
theorem kyber_decaps_mismatch (ct sk mG cG sG : List Nat)
    (hF : constant_time_memcmp (ct.take KYBER_CIPHERTEXT_BYTES)
          (kyber_encrypt (cG.take KYBER_CIPHERTEXT_BYTES))
          KYBER_CIPHERTEXT_BYTES ≠ 0) :
    (kyber_decaps ct sk mG cG sG).2 = kyber_decaps_failure_secret sk := by
  simp only [kyber_decaps]
  rw [if_neg hF]
  rw [cmove_of_ne_zero _ _ _ _ hF]
  exact map_getD_mod_eq _ 32 (shake128_length _ _ _) (shake128_bytes_lt _ _ _)

/-- Length of the secret produced by `kyber_decaps`. -/
theorem kyber_decaps_length (ct sk mG cG sG : List Nat) :
    (kyber_decaps ct sk mG cG sG).2.length = 32 := by
  simp only [kyber_decaps, constant_time_conditional_move]
  rw [List.length_map, List.length_range]

/-- Claim C4 (amended).  `kyber_decaps` always returns status 0 and a
32-byte secret; the returned bytes are chosen between the success
secret and the implicit-rejection secret by the
`constant_time_conditional_move` pair driven by the
`constant_time_memcmp` result.  Unlike the claim's wording, the
implicit-rejection secret hashes only the secret-key-derived rejection
value — the ciphertext is not part of that hash input. -/
theorem claim_C4_decaps_implicit_rejection (ct sk mG cG sG : List Nat) :
    (kyber_decaps ct sk mG cG sG).1 = 0 ∧
    (kyber_decaps ct sk mG cG sG).2.length = 32 ∧
    (kyber_decaps ct sk mG cG sG).2 =
      (if constant_time_memcmp (ct.take KYBER_CIPHERTEXT_BYTES)
          (kyber_encrypt (cG.take KYBER_CIPHERTEXT_BYTES))
          KYBER_CIPHERTEXT_BYTES = 0
       then kyber_decaps_success_secret ct sk mG
       else kyber_decaps_failure_secret sk) ∧
    (∀ ct' : List Nat,
      constant_time_memcmp (ct.take KYBER_CIPHERTEXT_BYTES)
        (kyber_encrypt (cG.take KYBER_CIPHERTEXT_BYTES))
        KYBER_CIPHERTEXT_BYTES ≠ 0 →
      constant_time_memcmp (ct'.take KYBER_CIPHERTEXT_BYTES)
        (kyber_encrypt (cG.take KYBER_CIPHERTEXT_BYTES))
        KYBER_CIPHERTEXT_BYTES ≠ 0 →
      (kyber_decaps ct sk mG cG sG).2 = (kyber_decaps ct' sk mG cG sG).2) := by
  refine ⟨rfl, kyber_decaps_length ct sk mG cG sG, ?_, ?_⟩
  · by_cases hF : constant_time_memcmp (ct.take KYBER_CIPHERTEXT_BYTES)
        (kyber_encrypt (cG.take KYBER_CIPHERTEXT_BYTES))
        KYBER_CIPHERTEXT_BYTES = 0
    · rw [if_pos hF]
      exact kyber_decaps_match ct sk mG cG sG hF
    · rw [if_neg hF]
      exact kyber_decaps_mismatch ct sk mG cG sG hF
  · intro ct' h1 h2
    rw [kyber_decaps_mismatch ct sk mG cG sG h1,
      kyber_decaps_mismatch ct' sk mG cG sG h2]

/-- A disagreement below `len` makes `constant_time_memcmp` report 1. -/
theorem constant_time_memcmp_ne_zero (a b : List Nat) (len : Nat)
    (h : ¬ ∀ i < len, a.getD i 0 = b.getD i 0) :
    constant_time_memcmp a b len ≠ 0 := by
  unfold constant_time_memcmp
  have hr : (List.range len).foldl
      (fun acc i => acc ||| (a.getD i 0 ^^^ b.getD i 0)) 0 ≠ 0 :=
    fun h0 => h ((orfold_eq_zero_iff a b len).mp h0)
  rw [if_pos hr]
  exact one_ne_zero

/-- Witness for C4: all-zero key and buffers, with the `ct_check`
garbage buffer starting with the byte 1, so the comparison fails for
both the all-zero and the all-one ciphertext; the two rejected
decapsulations return the same secret even though the ciphertexts
differ. -/
theorem claim_C4_decaps_implicit_rejection_witness :
    (kyber_decaps (List.replicate 1088 0) (List.replicate 2400 0)
        (List.replicate 32 0) (1 :: List.replicate 1087 0)
        (List.replicate 32 0)).2 =
    (kyber_decaps (List.replicate 1088 1) (List.replicate 2400 0)
        (List.replicate 32 0) (1 :: List.replicate 1087 0)
        (List.replicate 32 0)).2 :=
  (claim_C4_decaps_implicit_rejection (List.replicate 1088 0)
      (List.replicate 2400 0) (List.replicate 32 0)
      (1 :: List.replicate 1087 0) (List.replicate 32 0)).2.2.2
    (List.replicate 1088 1)
    (constant_time_memcmp_ne_zero _ _ _ (fun hall => by
      have h0 := hall 0 (by decide)
      revert h0
      decide))
    (constant_time_memcmp_ne_zero _ _ _ (fun hall => by
      have h0 := hall 1 (by decide)
      revert h0
      decide))

/-- Claim C3, evaluated structurally.  `encrypt`, `decrypt` and
`pack_secret_key` are empty stubs in the source, so: the "ciphertext"
returned by `kyber_encaps` is exactly the caller's uninitialised
buffer, independent of the public key and of the encapsulated message;
the packed secret key is the uninitialised key buffer, independent of
the generated secret vector; and decryption recovers nothing.  The KEM
round trip `decaps (encaps pk).ct sk = (encaps pk).ss` therefore cannot
hold: the decapsulated secret is derived from buffer garbage, not from
the encapsulated message. -/
theorem claim_C3_kem_stubs :
    (∀ g : List Nat, kyber_encrypt g = g) ∧
    (∀ g : List Nat, kyber_decrypt g = g) ∧
    (∀ pk m g : List Nat,
      (kyber_encaps pk m g).1 = g.take KYBER_CIPHERTEXT_BYTES) ∧
    (∀ seed pG sG : List Nat, (kyber_keypair seed pG sG).2 = sG) :=
  ⟨fun _ => rfl, fun _ => rfl, fun _ _ _ => rfl, fun _ _ _ => rfl⟩

/-! ## Dilithium signature module (§4.5)

`dilithium_sign` from the source, embedded with explicit garbage
parameters for the buffers the C reads without writing.  Two remarks on
fidelity:
* `poly_uniform_gamma1` fills 640 bytes of SHAKE output into `buf` but
  the coefficient loop reads `buf[0..1023]`; the 384 bytes past the end
  of the buffer are modelled by the garbage parameter `bufG`.  The
  `nonce` parameter is accepted and never read, exactly as in the C.
* the C helpers reference `gamma1`, `tau`, ... which are local
  constants of `dilithium_sign` (`gamma1 = 1 << 19`, `gamma2 =
  (1 << 18) - 1`, `beta = 196`, `tau = 49`, `eta = 4`); the embedding
  uses those values.  Products such as `a_elem * y[k][j]` can exceed
  `int32_t` in the C (undefined behaviour); the embedding computes them
  in exact integer arithmetic. -/

/-- The Dilithium modulus. -/
def DILITHIUM_Q : Nat := 8380417

/-- `poly_uniform_gamma1` from the source: 640 SHAKE-256 bytes (the
nonce argument is ignored by the C code — the same seed is hashed every
call), then 256 little-endian 32-bit words reduced into
`[-gamma1, gamma1)`.  Words 160..255 read past the 640-byte buffer. -/
def poly_uniform_gamma1 (seed bufG : List Nat) (nonce : Nat) : List Int :=
  let buf := shake256 (seed.take 64) 640 ++ bufG.take 384
  (List.range 256).map fun i =>
    let val := buf.getD (4*i) 0 ||| (buf.getD (4*i+1) 0 <<< 8) |||
               (buf.getD (4*i+2) 0 <<< 16) ||| (buf.getD (4*i+3) 0 <<< 24)
    (Int.ofNat (val % 1048576)) - 524288

/-- `dilithium_matrix_vector_mult` from the source: matrix entries are
derived from `rho` bytes, accumulation is `(w + a_elem * y[k][j]) % Q`
with C truncated remainder. -/
def dilithium_matrix_vector_mult (rho : List Nat) (y : List (List Int)) :
    List (List Int) :=
  (List.range 6).map fun i => (List.range 256).map fun j =>
    (List.range 5).foldl (fun w k =>
      let a_elem : Int :=
        Int.ofNat ((rho.getD ((i*5 + k) % 32) 0 * 31 + j) % DILITHIUM_Q)
      Int.tmod (w + a_elem * ((y.getD k []).getD j 0)) 8380417) 0

/-- `pack_w1` from the source: 32 bytes, each `(w[0][i] >> 12) & 0xFF`
(the index arithmetic `i / 32` stays 0 for `i < 32`); the shift is the
C arithmetic shift on `int`, the mask takes the low byte of the two's
complement value. -/
def pack_w1 (w : List (List Int)) : List Nat :=
  (List.range 32).map fun i =>
    Int.toNat ((Int.fdiv ((w.getD 0 []).getD i 0) 4096) % 256)

/-- `sample_challenge` from the source: positions are bytes of 136
SHAKE-256 output (`buf[i] % 256`), values alternate `-1`/`1` with the
parity of the byte index, stopping after 49 placements. -/
def sample_challenge (seed : List Nat) : List Int :=
  let buf := shake256 (seed.take 32) 136
  ((List.range 136).foldl (fun st i =>
    if st.2 < 49 then
      let pos := buf.getD i 0 % 256
      if st.1.getD pos 0 = 0 then
        (st.1.set pos (if i % 2 = 1 then (1 : Int) else -1), st.2 + 1)
      else st
    else st) (List.replicate 256 (0 : Int), 0)).1

/-- The message digest `mu` of `dilithium_sign`: SHAKE-256 of
`tr ‖ message` (`tr = sk[64..95]`). -/
def dilithium_sign_mu (sk m : List Nat) : List Nat :=
  shake256 ((sk.drop 64).take 32 ++ m) 64

/-- The commitment randomness `rhoprime` of `dilithium_sign`:
SHAKE-256 of `K ‖ mu` (`K = sk[32..63]`). -/
def dilithium_sign_rhoprime (sk m : List Nat) : List Nat :=
  shake256 ((sk.drop 32).take 32 ++ dilithium_sign_mu sk m) 64

/-- `pack_signature` from the source: 32 bytes of challenge seed, the
low byte of each of the 1280 `z` coefficients, and 1981 bytes the C
never writes (modelled by the garbage parameter). -/
def pack_signature (c_seed : List Nat) (z : Nat → Nat → Int)
    (sigG : List Nat) : List Nat :=
  c_seed.take 32 ++
  ((List.range 1280).map fun idx => Int.toNat (z (idx / 256) (idx % 256) % 256)) ++
  (sigG.drop 1312).take 1981

/-- One iteration of the `while (true)` rejection-sampling loop of
`dilithium_sign`: sample the mask vector `y` (the nonce passed on to
`poly_uniform_gamma1` is ignored there), compute `w = Ay`, derive the
challenge, compute `z = y + c·s1` and the check value `w − c·s2`
(`s1`/`s2` reconstructed from seed bytes as in the C), and reject if
any coefficient is out of bounds; on acceptance pack the signature. -/
def dilithium_sign_attempt (sk m bufG sigG : List Nat) (nonce : Nat) :
    Option (List Nat) :=
  let mu := dilithium_sign_mu sk m
  let rhoprime := dilithium_sign_rhoprime sk m
  let rho := sk.take 32
  let s1_seed := (sk.drop 96).take 32
  let s2_seed := (sk.drop 128).take 32
  let y := (List.range 5).map fun i => poly_uniform_gamma1 rhoprime bufG (nonce + i)
  let w := dilithium_matrix_vector_mult rho y
  let c_seed := shake256 (mu.take 32 ++ pack_w1 w) 32
  let c := sample_challenge c_seed
  let z := fun i j => (y.getD i []).getD j 0 +
    c.getD j 0 * (Int.ofNat ((s1_seed.getD (j % 32) 0 * 31 + i) % 9) - 4)
  let reject1 := (List.range 5).any fun i => (List.range 256).any fun j =>
    524092 ≤ (z i j).natAbs
  let reject2 := (List.range 6).any fun i => (List.range 256).any fun j =>
    261947 ≤ ((w.getD i []).getD j 0 -
      c.getD j 0 * (Int.ofNat ((s2_seed.getD (j % 32) 0 * 37 + i) % 9) - 4)).natAbs
  if reject1 || reject2 then none
  else some (pack_signature c_seed z sigG)

/-- The `while (true)` loop of `dilithium_sign`, indexed by a fuel
bound the C code does not have: each iteration consumes five nonces
(`nonce++` per mask polynomial) and retries on rejection. -/
def dilithium_sign_loop (sk m bufG sigG : List Nat) :
    Nat → Nat → Option (List Nat)
  | 0, _ => none
  | fuel + 1, nonce =>
    match dilithium_sign_attempt sk m bufG sigG nonce with
    | some sig => some sig
    | none => dilithium_sign_loop sk m bufG sigG fuel (nonce + 5)

/-- `dilithium_sign` from the source, with `fuel` bounding the number
of iterations observed (the C loop itself is unbounded). -/
def dilithium_sign (fuel : Nat) (sk m bufG sigG : List Nat) :
    Option (List Nat) :=
  dilithium_sign_loop sk m bufG sigG fuel 0

/-- The loop body of `dilithium_sign` does not depend on the nonce:
`poly_uniform_gamma1` receives the incremented nonce but never reads
it, so every retry resamples exactly the same values. -/
theorem dilithium_sign_attempt_nonce_irrelevant (sk m bufG sigG : List Nat)
    (n n' : Nat) :
    dilithium_sign_attempt sk m bufG sigG n =
    dilithium_sign_attempt sk m bufG sigG n' := rfl

/-- Any number of extra iterations of the signing loop changes
nothing: the loop's outcome is that of its first iteration. -/
theorem dilithium_sign_loop_collapse (sk m bufG sigG : List Nat) :
    ∀ fuel nonce nonce',
      dilithium_sign_loop sk m bufG sigG (fuel + 1) nonce =
      dilithium_sign_loop sk m bufG sigG 1 nonce' := by
  intro fuel
  induction fuel with
  | zero =>
    intro nonce nonce'
    simp only [dilithium_sign_loop]
    rw [dilithium_sign_attempt_nonce_irrelevant sk m bufG sigG nonce nonce']
  | succ k ih =>
    intro nonce nonce'
    rw [dilithium_sign_loop]
    rw [dilithium_sign_attempt_nonce_irrelevant sk m bufG sigG nonce nonce']
    cases h : dilithium_sign_attempt sk m bufG sigG nonce' with
    | some s =>
      simp only [dilithium_sign_loop, h]
    | none =>
      simp only [h]
      exact ih (nonce + 5) nonce'

/-- Claim C5.  The claim states the rejection-sampling loop is bounded
by a fixed maximum retry count so that signing always terminates, with
a fatal error when the bound is exceeded.  The C loop is
`while (true)` with no retry counter, and — because
`poly_uniform_gamma1` ignores its nonce — every retry recomputes
exactly the same mask vector, commitment and rejection verdict: after
any number of additional iterations the outcome is still that of the
first iteration.  On an input whose first iteration rejects, the loop
therefore never terminates, and no fatal error path exists. -/
theorem claim_C5_sign_loop_unbounded (sk m bufG sigG : List Nat)
    (fuel nonce : Nat) :
    dilithium_sign_loop sk m bufG sigG (fuel + 1) nonce =
      dilithium_sign_loop sk m bufG sigG 1 0 ∧
    dilithium_sign (fuel + 1) sk m bufG sigG =
      dilithium_sign 1 sk m bufG sigG :=
  ⟨dilithium_sign_loop_collapse sk m bufG sigG fuel nonce 0,
   dilithium_sign_loop_collapse sk m bufG sigG fuel 0 0⟩

/-! ## Dilithium verification (`dilithium_verify`)

The source verification does not parse `z`, has no norm check and
never re-expands the challenge: it rebuilds an "expected signature"
stream from `std::hash<std::string>` applied to `message ‖ public key`
(re-hashed through `std::to_string` every 8 bytes) and compares the
given signature against it.  `std::hash` is implementation defined, so
it is modelled as an abstract `h : List Nat → Nat`, reduced mod 2^64
for the `size_t` value. -/

/-- Decimal ASCII digits of a natural number (`std::to_string`). -/
def decDigits (n : Nat) : List Nat :=
  if n < 10 then [48 + n]
  else decDigits (n / 10) ++ [48 + n % 10]
termination_by n
decreasing_by omega

/-- The `hash_val` chain of `dilithium_verify`: the initial value is
`hasher(message + public_key)` (exactly 1952 key bytes), and after
every 8 emitted bytes `hash_val = hasher(to_string(hash_val))`. -/
def expected_sig_hash (h : List Nat → Nat) (m pk : List Nat) : Nat → Nat
  | 0 => h (m ++ pk.take 1952) % U64
  | k + 1 => h (decDigits (expected_sig_hash h m pk k)) % U64

/-- The `expected_sig` buffer of `dilithium_verify`: byte `i` is
`(hash_val >> (8*(i % 8))) & 0xFF` with the hash value re-derived
every 8 bytes. -/
def dilithium_expected_sig (h : List Nat → Nat) (m pk : List Nat) :
    List Nat :=
  (List.range 3293).map fun i =>
    (expected_sig_hash h m pk (i / 8) >>> (8 * (i % 8))) % 256

/-- `dilithium_verify` from the source: `-1` on a wrong signature
length, otherwise the `constant_time_memcmp` result against the
hash-derived expected signature. -/
def dilithium_verify (h : List Nat → Nat) (sig m pk : List Nat) : Int :=
  if sig.length ≠ 3293 then -1
  else Int.ofNat (constant_time_memcmp sig (dilithium_expected_sig h m pk) 3293)

/-- `Java_..._dilithiumVerify` from the source: `JNI_TRUE` iff
`dilithium_verify` returned 0. -/
def dilithium_verifyB (h : List Nat → Nat) (sig m pk : List Nat) : Bool :=
  dilithium_verify h sig m pk == 0

/-- `constant_time_memcmp` of a buffer with itself reports a match. -/
theorem constant_time_memcmp_self (a : List Nat) (len : Nat) :
    constant_time_memcmp a a len = 0 := by
  unfold constant_time_memcmp
  rw [(orfold_eq_zero_iff a a len).mpr (fun i _ => rfl)]
  simp

/-- `constant_time_memcmp` reports a match iff the buffers agree at
every index below `len`. -/
theorem constant_time_memcmp_eq_zero_iff (a b : List Nat) (len : Nat) :
    constant_time_memcmp a b len = 0 ↔
    ∀ i < len, a.getD i 0 = b.getD i 0 := by
  rw [← orfold_eq_zero_iff a b len]
  unfold constant_time_memcmp
  rcases eq_or_ne ((List.range len).foldl
      (fun acc i => acc ||| (a.getD i 0 ^^^ b.getD i 0)) 0) 0 with h0 | h0
  · rw [h0]
    simp
  · rw [if_pos h0]
    exact iff_of_false one_ne_zero h0

/-- Length of the expected-signature buffer. -/
theorem dilithium_expected_sig_length (h : List Nat → Nat)
    (m pk : List Nat) : (dilithium_expected_sig h m pk).length = 3293 := by
  simp [dilithium_expected_sig]

set_option maxRecDepth 20000 in
/-- Claim C1.  The claim states `dilithium_verify` accepts iff the
norm bound on `z` holds and the challenge seed recomputed from `μ` and
the high bits of `A·z − c·t` matches the embedded seed.  The code
instead compares the signature against a stream derived from the
(non-sponge) `std::hash` of `message ‖ public key`: the forged
signature built from exactly that public data is accepted for every
message, every public key and every hash function — no secret key, no
norm bound and no challenge recomputation are involved. -/
theorem claim_C1_verify_accepts_forgery (h : List Nat → Nat)
    (m pk : List Nat) :
    dilithium_verifyB h (dilithium_expected_sig h m pk) m pk = true := by
  unfold dilithium_verifyB dilithium_verify
  rw [if_neg (by rw [dilithium_expected_sig_length]; omega)]
  rw [constant_time_memcmp_self]
  rfl

set_option maxRecDepth 20000 in
/-- Claim C2.  The claim states `verify (sign m sk) m pk = true` for
every generated keypair.  Acceptance by the code is equality with the
`std::hash`-derived expected stream — a target that depends only on
the message, the public key and the platform hash function, never on
the secret key or on anything `dilithium_sign` computes (`sign` never
evaluates `std::hash`; its output starts with a SHAKE-256 challenge
seed followed by `z` bytes and uninitialised memory). -/
theorem claim_C2_verify_accepts_only_hash_target (h : List Nat → Nat)
    (sig m pk : List Nat) :
    dilithium_verifyB h sig m pk = true ↔
    (sig.length = 3293 ∧ sig = dilithium_expected_sig h m pk) := by
  unfold dilithium_verifyB dilithium_verify
  by_cases hl : sig.length = 3293
  · rw [if_neg (by omega)]
    rw [beq_iff_eq]
    constructor
    · intro hz
      have hz' : constant_time_memcmp sig (dilithium_expected_sig h m pk)
          3293 = 0 := Int.ofNat_eq_zero.mp hz
      refine ⟨hl, ?_⟩
      apply List.ext_getElem
        (by rw [hl, dilithium_expected_sig_length])
      intro i h1 h2
      have he := (constant_time_memcmp_eq_zero_iff _ _ _).mp hz' i (by omega)
      rwa [List.getD_eq_getElem _ 0 h1, List.getD_eq_getElem _ 0 h2] at he
    · rintro ⟨_, rfl⟩
      rw [constant_time_memcmp_self]
      rfl
  · rw [if_pos hl]
    constructor
    · intro hfalse
      exact absurd hfalse (by decide)
    · rintro ⟨h1, _⟩
      exact absurd h1 hl

/-! ## Entropy seeding (`ConstantTimeCrypto` constructor,
`SecureMemoryWiper.cpp`) -/

/-- `ConstantTimeCrypto::ConstantTimeCrypto` from the source: the
"secure RNG" (`std::mt19937_64`, used by `kyber_keypair` and
`kyber_encaps` for all key/message randomness) is seeded with
`high_resolution_clock::now().time_since_epoch().count()` — a
wall-clock timestamp.  The seed is exactly the clock value. -/
def constantTimeCrypto_rng_seed (clock_timestamp : Nat) : Nat :=
  clock_timestamp

/-- `secure_random_fill` from `SecureMemoryWiper.cpp`: `size` bytes
from `/dev/urandom` when it opens, otherwise a silent byte-wise
fallback to `rand() & 0xFF`.  No failure is ever reported: the C
function returns `void`. -/
def secure_random_fill (urandom : Option (List Nat))
    (randStream : Nat → Nat) (size : Nat) : List Nat :=
  match urandom with
  | some bytes => (List.range size).map fun i => bytes.getD i 0
  | none => (List.range size).map fun i => randStream i % 256

/-- Claim C9, evaluated structurally.  When the entropy source is
unavailable, `secure_random_fill` still returns a full-size buffer
drawn from `rand()` — there is no error path — and the crypto
object's RNG seed is the wall-clock timestamp itself. -/
theorem claim_C9_entropy_fallback :
    (∀ r : Nat → Nat, ∀ n : Nat, (secure_random_fill none r n).length = n) ∧
    (∀ t : Nat, constantTimeCrypto_rng_seed t = t) :=
  ⟨fun r n => by simp [secure_random_fill], fun _ => rfl⟩

end GhostBridge
